import Mathlib

/-!
Verification of the go-syncstorage repository against its specification.

The first part embeds `src/api/api.go` (the router helpers `makeSyncHandler`,
`okResponse`, `errorResponse`, the info handlers) and the shard arithmetic of
`main` in `src/unnamed/part_000`.  The second part models, from the
specification, the Context-based HTTP layer and the per-user Store whose Go
source is not present under `src/` (only its tests are): the timestamp wire
format, the router and its 404 handler, quota accounting, collection GET
pagination, conditional-header checks and `PutBSO`/`PostBSOs` write semantics.
-/

/-- HTTP headers, modelled as an association list (`http.Header` with
single-valued entries, which is all the embedded code uses). -/
abbrev HeaderMap := List (String × String)

/-- `Header.Set` replaces any previous value of the key. -/
def setHeader (hs : HeaderMap) (k v : String) : HeaderMap :=
  (k, v) :: hs.filter (fun p => p.1 ≠ k)

/-- `Header.Get` returns the value for the key, or `none`. -/
def getHeader (hs : HeaderMap) (k : String) : Option String :=
  (hs.find? (fun p => p.1 = k)).map (fun p => p.2)

/-- State of a Go `http.ResponseWriter` / `httptest.ResponseRecorder`:
the status code once written, the accumulated headers and body. -/
structure RW where
  status : Option Nat
  headers : HeaderMap
  body : String
deriving Repr, DecidableEq

/-- A fresh response recorder. -/
def RW.init : RW := ⟨none, [], ""⟩

/-- `w.WriteHeader(code)`: a second call is ignored by net/http. -/
def RW.writeHeader (w : RW) (code : Nat) : RW :=
  match w.status with
  | some _ => w
  | none => { w with status := some code }

/-- `w.Write` / `fmt.Fprint(w, s)`: an implicit `WriteHeader(200)` happens
on the first write, then the bytes are appended to the body. -/
def RW.write (w : RW) (s : String) : RW :=
  let w' := w.writeHeader 200
  { w' with body := w'.body ++ s }

/-- Go's `http.StatusText` for the codes the embedded code uses. -/
def statusText (code : Nat) : String :=
  if code = 400 then "Bad Request"
  else if code = 404 then "Not Found"
  else if code = 500 then "Internal Server Error"
  else if code = 501 then "Not Implemented"
  else ""

/-- Go's `http.Error(w, error, code)`: sets `Content-Type` and
`X-Content-Type-Options`, writes the status code, then `Fprintln` appends the
message and a newline. -/
def httpError (w : RW) (msg : String) (code : Nat) : RW :=
  let w1 := { w with headers := setHeader (setHeader w.headers "Content-Type" "text/plain; charset=utf-8") "X-Content-Type-Options" "nosniff" }
  (w1.writeHeader code).write (msg ++ "\n")

/-- Errors surfaced by the `syncstorage.Dispatch` interface as seen from
`api.go`: `ErrNotFound` or any other error value (carried as its message). -/
inductive GoErr where
  | notFound : GoErr
  | errMsg : String → GoErr
deriving Repr, DecidableEq

/-- `okResponse` from `src/api/api.go`: 200 with a plain-text body. -/
def okResponse (w : RW) (s : String) : RW :=
  let w1 := { w with headers := setHeader (setHeader w.headers "Content-Type" "text/plain; charset=utf-8") "X-Content-Type-Options" "nosniff" }
  (w1.writeHeader 200).write s

/-- `errorResponse` from `src/api/api.go`: the error value is only kept for
future logging; the response is always a generic 500. -/
def errorResponse (w : RW) (_e : GoErr) : RW :=
  httpError w (statusText 500) 500

/-- `jsonResponse` from `src/api/api.go`, with the marshalled bytes passed in
(marshalling of the `map[string]int` / `map[string]float64` results of the
info handlers cannot fail). -/
def jsonResponse (w : RW) (js : String) : RW :=
  ({ w with headers := setHeader w.headers "Content-Type" "application/json" }).write js

/-- `handleInfoCollections` from `src/api/api.go`, parametrised by the result
of `d.Dispatch.InfoCollections(uid)` and the marshalled form of a successful
result. -/
def handleInfoCollections (res : Except GoErr String) (w : RW) : RW :=
  match res with
  | .error e => errorResponse w e
  | .ok js => jsonResponse w js

/-- `handleInfoCollectionUsage` from `src/api/api.go`, parametrised by the
result of `d.Dispatch.InfoCollectionUsage(uid)`. -/
def handleInfoCollectionUsage (res : Except GoErr String) (w : RW) : RW :=
  match res with
  | .error e => errorResponse w e
  | .ok js => jsonResponse w js

/-- Observable actions of the `makeSyncHandler` wrapper in
`src/api/api.go`. -/
inductive SyncEvent where
  | wroteError : Nat → String → SyncEvent
  | invokedInner : String → SyncEvent
deriving Repr, DecidableEq

/-- `mux.Vars(r)["uid"]` lookup. -/
def lookupVar (vars : List (String × String)) (k : String) : Option String :=
  (vars.find? (fun p => p.1 = k)).map (fun p => p.2)

/-- Event trace of `makeSyncHandler` from `src/api/api.go`: when the `uid`
mux variable is missing it writes `http.Error(w, "UID missing", 400)` but
does not return, so the inner handler still runs with the zero-value `uid`
(the empty string). -/
def makeSyncHandlerEvents (vars : List (String × String)) : List SyncEvent :=
  match lookupVar vars "uid" with
  | none => [.wroteError 400 "UID missing", .invokedInner ""]
  | some uid => [.invokedInner uid]

/-- State-level version of `makeSyncHandler`: the writer state after the
wrapper, handed to an arbitrary inner handler `h`. -/
def makeSyncHandler (h : RW → String → RW) (vars : List (String × String)) (w : RW) : RW :=
  match lookupVar vars "uid" with
  | none => h (httpError w "UID missing" 400) ""
  | some uid => h w uid

/-- True exactly on inner-handler invocation events. -/
def isInvokeEvent : SyncEvent → Bool
  | .invokedInner _ => true
  | _ => false

/-- `main` in `src/unnamed/part_000` uses a fixed number of pools. -/
def numPools : Nat := 8

/-- `cacheSize := int(uint16(config.MaxOpenFiles) / numPools)` from `main` in
`src/unnamed/part_000`: the conversion to `uint16` reduces the configured
value modulo 2^16 before the division by 8. -/
def mainCacheSize (maxOpenFiles : Nat) : Nat :=
  (maxOpenFiles % 65536) / numPools

/-- C9: for every set of mux variables, the `makeSyncHandler` wrapper invokes
the inner handler exactly once; when the `uid` variable is missing it first
writes a 400 "UID missing" error and then still invokes the inner handler
with the empty-string uid, and when the variable is present it invokes the
inner handler with that uid and writes no error. -/
theorem makeSyncHandler_always_invokes_inner (vars : List (String × String)) :
    ((makeSyncHandlerEvents vars).countP (fun e => isInvokeEvent e)) = 1 ∧
    (lookupVar vars "uid" = none →
      makeSyncHandlerEvents vars =
        [.wroteError 400 "UID missing", .invokedInner ""]) ∧
    (∀ uid, lookupVar vars "uid" = some uid →
      makeSyncHandlerEvents vars = [.invokedInner uid]) := by
  refine ⟨?_, ?_, ?_⟩
  · unfold makeSyncHandlerEvents
    cases lookupVar vars "uid" <;> simp [isInvokeEvent, List.countP, List.countP.go]
  · intro h
    unfold makeSyncHandlerEvents
    rw [h]
  · intro uid h
    unfold makeSyncHandlerEvents
    rw [h]

/-- Witness for C9 at concrete inputs: with no `uid` variable the trace is
the 400 error followed by an invocation with the empty uid. -/
theorem makeSyncHandler_always_invokes_inner_witness :
    ((makeSyncHandlerEvents [("other", "x")]).countP (fun e => isInvokeEvent e)) = 1 ∧
    makeSyncHandlerEvents [("other", "x")] =
      [.wroteError 400 "UID missing", .invokedInner ""] := by
  have h := makeSyncHandler_always_invokes_inner [("other", "x")]
  exact ⟨h.1, h.2.1 (by decide)⟩

/-- C10: for every error value returned by `Dispatch.InfoCollections` or
`Dispatch.InfoCollectionUsage` — including `ErrNotFound` — the info handlers
respond 500 with the generic `http.StatusText` body ("Internal Server Error",
with `http.Error`'s trailing newline), and the response does not depend on
which error occurred. -/
theorem infoHandlers_error_always_500 (e e' : GoErr) :
    (handleInfoCollections (.error e) RW.init).status = some 500 ∧
    (handleInfoCollections (.error e) RW.init).body = "Internal Server Error\n" ∧
    handleInfoCollections (.error e) RW.init = handleInfoCollections (.error e') RW.init ∧
    (handleInfoCollectionUsage (.error e) RW.init).status = some 500 ∧
    (handleInfoCollectionUsage (.error e) RW.init).body = "Internal Server Error\n" ∧
    handleInfoCollectionUsage (.error e) RW.init = handleInfoCollectionUsage (.error e') RW.init := by
  refine ⟨rfl, rfl, rfl, rfl, rfl, rfl⟩

/-- C7 counterexample: at `MaxOpenFiles = 65536` the code's `uint16`
conversion wraps to 0, so the pool cache size is 0 rather than the even
split 65536 / 8 = 8192 the claim states. -/
theorem cacheSize_not_even_split_at_65536 :
    mainCacheSize 65536 = 0 ∧ 65536 / numPools = 8192 ∧
    mainCacheSize 65536 ≠ 65536 / numPools := by
  refine ⟨rfl, rfl, ?_⟩
  decide

/-- C7 (amended): `main` constructs exactly 8 pools, and each pool's
`cacheSize` is `(maxOpenFiles mod 2^16) / 8` — the `uint16` conversion
truncates first — which agrees with `maxOpenFiles / 8` exactly when the
configured value is below 65536. -/
theorem numPools_and_cacheSize :
    numPools = 8 ∧
    (∀ m, mainCacheSize m = (m % 65536) / 8) ∧
    (∀ m, m < 65536 → mainCacheSize m = m / 8) := by
  refine ⟨rfl, fun m => rfl, fun m hm => ?_⟩
  unfold mainCacheSize numPools
  rw [Nat.mod_eq_of_lt hm]

/-- Witness for C7 at a concrete configuration below the wrap point. -/
theorem numPools_and_cacheSize_witness :
    800 < 65536 ∧ mainCacheSize 800 = 800 / 8 := by
  exact ⟨by decide, numPools_and_cacheSize.2.2 800 (by decide)⟩

/-! ### Decimal digit characters and the timestamp wire format -/

/-- The decimal digit character for a value below ten. -/
def digitChar : Nat → Char
  | 0 => '0'
  | 1 => '1'
  | 2 => '2'
  | 3 => '3'
  | 4 => '4'
  | 5 => '5'
  | 6 => '6'
  | 7 => '7'
  | 8 => '8'
  | _ => '9'

/-- Numeric value of a decimal digit character; 10 marks a non-digit. -/
def charVal (c : Char) : Nat :=
  if c = '0' then 0 else if c = '1' then 1 else if c = '2' then 2
  else if c = '3' then 3 else if c = '4' then 4 else if c = '5' then 5
  else if c = '6' then 6 else if c = '7' then 7 else if c = '8' then 8
  else if c = '9' then 9 else 10

/-- `[0-9]` test. -/
def isDigitChar (c : Char) : Bool := decide (charVal c < 10)

theorem charVal_lt_of_isDigit {c : Char} (h : isDigitChar c = true) :
    charVal c < 10 := of_decide_eq_true h

theorem isDigit_of_charVal_lt {c : Char} (h : charVal c < 10) :
    isDigitChar c = true := decide_eq_true h

theorem digit_char_cases {c : Char} (h : charVal c < 10) :
    c = '0' ∨ c = '1' ∨ c = '2' ∨ c = '3' ∨ c = '4' ∨
    c = '5' ∨ c = '6' ∨ c = '7' ∨ c = '8' ∨ c = '9' := by
  by_contra hc
  push_neg at hc
  obtain ⟨h0, h1, h2, h3, h4, h5, h6, h7, h8, h9⟩ := hc
  unfold charVal at h
  rw [if_neg h0, if_neg h1, if_neg h2, if_neg h3, if_neg h4, if_neg h5,
    if_neg h6, if_neg h7, if_neg h8, if_neg h9] at h
  omega

theorem digitChar_charVal {c : Char} (h : charVal c < 10) :
    digitChar (charVal c) = c := by
  rcases digit_char_cases h with rfl | rfl | rfl | rfl | rfl | rfl | rfl | rfl | rfl | rfl <;>
    decide

theorem charVal_digitChar {d : Nat} (h : d < 10) : charVal (digitChar d) = d := by
  interval_cases d <;> decide

theorem charVal_eq_zero_iff {c : Char} (h : charVal c < 10) :
    charVal c = 0 ↔ c = '0' := by
  rcases digit_char_cases h with rfl | rfl | rfl | rfl | rfl | rfl | rfl | rfl | rfl | rfl <;>
    decide

/-- Little-endian digit characters of `n`, with enough fuel. -/
def natCharsAux : Nat → Nat → List Char
  | 0, _ => []
  | _ + 1, 0 => []
  | fuel + 1, n + 1 => digitChar ((n + 1) % 10) :: natCharsAux fuel ((n + 1) / 10)

/-- Decimal digit characters of `n`, most significant first (`fmt "%d"`). -/
def natChars (n : Nat) : List Char :=
  if n = 0 then ['0'] else (natCharsAux n n).reverse

/-- Decimal numeral string of `n`. -/
def natToString (n : Nat) : String := String.mk (natChars n)

theorem natCharsAux_eq :
    ∀ fuel n, n ≤ fuel → natCharsAux fuel n = (Nat.digits 10 n).map digitChar := by
  intro fuel
  induction fuel with
  | zero =>
    intro n h
    interval_cases n
    simp [natCharsAux]
  | succ f ih =>
    intro n h
    match n with
    | 0 => simp [natCharsAux]
    | m + 1 =>
      have hdiv : (m + 1) / 10 ≤ f :=
        Nat.lt_succ_iff.mp (lt_of_lt_of_le (Nat.div_lt_self (Nat.succ_pos m) (by norm_num)) h)
      rw [natCharsAux, Nat.digits_def' (by norm_num : (1 : ℕ) < 10) (Nat.succ_pos m),
        List.map_cons, ih _ hdiv]

theorem natChars_eq (n : Nat) :
    natChars n = if n = 0 then ['0'] else ((Nat.digits 10 n).map digitChar).reverse := by
  unfold natChars
  by_cases h : n = 0
  · simp [h]
  · rw [if_neg h, if_neg h, natCharsAux_eq n n le_rfl]

theorem natChars_all_digit (m : Nat) : ∀ c ∈ natChars m, charVal c < 10 := by
  intro c hc
  rw [natChars_eq] at hc
  by_cases h : m = 0
  · rw [if_pos h] at hc
    simp at hc
    subst hc
    decide
  · rw [if_neg h, List.mem_reverse, List.mem_map] at hc
    obtain ⟨d, hd, rfl⟩ := hc
    have hd10 : d < 10 := Nat.digits_lt_base (by norm_num) hd
    rw [charVal_digitChar hd10]
    exact hd10

theorem natChars_ne_nil (m : Nat) : natChars m ≠ [] := by
  rw [natChars_eq]
  by_cases h : m = 0
  · simp [h]
  · rw [if_neg h]
    simp [Nat.digits_ne_nil_iff_ne_zero.mpr h]

/-- A canonical decimal numeral: digit characters only, and no leading zero
except for the single numeral "0". -/
def canonNat : List Char → Bool
  | [] => false
  | [c] => isDigitChar c
  | c :: rest => isDigitChar c && (c != '0') && rest.all isDigitChar

theorem canonNat_iff (cs : List Char) :
    canonNat cs = true ↔
      cs ≠ [] ∧ (∀ c ∈ cs, charVal c < 10) ∧ (cs.head? = some '0' → cs = ['0']) := by
  match cs with
  | [] => simp [canonNat]
  | [c] =>
    simp only [canonNat, isDigitChar, decide_eq_true_eq, List.head?_cons]
    constructor
    · intro h
      refine ⟨by simp, ?_, ?_⟩
      · intro x hx
        simp at hx
        subst hx
        exact h
      · intro hh
        simp at hh
        subst hh
        rfl
    · intro ⟨_, h2, _⟩
      exact h2 c (by simp)
  | c :: d :: rest =>
    simp only [canonNat, Bool.and_eq_true, bne_iff_ne, ne_eq, List.all_eq_true,
      isDigitChar, decide_eq_true_eq, List.head?_cons]
    constructor
    · intro ⟨⟨hc, hc0⟩, hrest⟩
      refine ⟨by simp, ?_, ?_⟩
      · intro x hx
        rcases List.mem_cons.mp hx with rfl | hx'
        · exact hc
        · exact hrest x hx'
      · intro hh
        simp at hh
        exact absurd hh hc0
    · intro ⟨_, hdig, hzero⟩
      refine ⟨⟨hdig c (by simp), ?_⟩, fun x hx => hdig x (List.mem_cons_of_mem _ hx)⟩
      intro hc0
      subst hc0
      simp at hzero

/-- Numeric value of a most-significant-first digit character list. -/
def listVal (cs : List Char) : Nat :=
  Nat.ofDigits 10 ((cs.map charVal).reverse)

theorem listVal_pair (c1 c2 : Char) :
    listVal [c1, c2] = 10 * charVal c1 + charVal c2 := by
  simp [listVal, Nat.ofDigits_cons, Nat.ofDigits_nil]
  ring

theorem listVal_lt_100 (c1 c2 : Char) (h1 : charVal c1 < 10) (h2 : charVal c2 < 10) :
    listVal [c1, c2] < 100 := by
  rw [listVal_pair]
  omega

/-- Rendering the parsed value of a canonical numeral gives it back. -/
theorem natChars_listVal (cs : List Char) (h : canonNat cs = true) :
    natChars (listVal cs) = cs := by
  obtain ⟨hne, hdig, hzero⟩ := (canonNat_iff cs).mp h
  by_cases h0 : cs = ['0']
  · subst h0
    decide
  · have hh0 : cs.head? ≠ some '0' := fun hh => h0 (hzero hh)
    set L : List Nat := (cs.map charVal).reverse with hL
    have hL10 : ∀ l ∈ L, l < 10 := by
      intro l hl
      rw [hL, List.mem_reverse, List.mem_map] at hl
      obtain ⟨c, hc, rfl⟩ := hl
      exact hdig c hc
    have hLne : L ≠ [] := by
      rw [hL]
      simpa using hne
    have hlast : ∀ hl : L ≠ [], L.getLast hl ≠ 0 := by
      intro hl hz
      have h1 : L.getLast? = some 0 := by
        rw [List.getLast?_eq_getLast L hl, hz]
      rw [hL, List.getLast?_reverse, List.head?_map, List.head?_eq_head hne] at h1
      simp only [Option.map_some', Option.some.injEq] at h1
      have hlt : charVal (cs.head hne) < 10 := hdig _ (List.head_mem hne)
      have hc0 : cs.head hne = '0' := (charVal_eq_zero_iff hlt).mp h1
      apply hh0
      rw [List.head?_eq_head hne, hc0]
    have hdigs : Nat.digits 10 (Nat.ofDigits 10 L) = L :=
      Nat.digits_ofDigits 10 (by norm_num) L hL10 hlast
    have hn0 : Nat.ofDigits 10 L ≠ 0 := by
      intro hzz
      rw [hzz] at hdigs
      simp at hdigs
      exact hLne hdigs
    show natChars (Nat.ofDigits 10 L) = cs
    rw [natChars_eq, if_neg hn0, hdigs, hL, List.map_reverse, List.reverse_reverse,
      List.map_map]
    have hcongr : List.map (digitChar ∘ charVal) cs = List.map id cs :=
      List.map_congr_left (fun c hc => digitChar_charVal (hdig c hc))
    rw [hcongr, List.map_id]

/-- The two-digit zero-padded rendering of `n % 100` (`fmt "%02d"`). -/
def twoDigitChars (m : Nat) : List Char :=
  [digitChar (m / 10), digitChar (m % 10)]

/-- Modelled from the spec: `ModifiedToString(n) = fmt("%d.%02d", n/100, n%100)`
(spec §4.5); the Go implementation of the timestamp format helper is not under
`src/`. -/
def modifiedToString (n : Nat) : String :=
  String.mk (natChars (n / 100) ++ '.' :: twoDigitChars (n % 100))

/-- Split a character list at the first '.', returning the pieces before and
after it. -/
def breakDot : List Char → Option (List Char × List Char)
  | [] => none
  | c :: rest =>
    if c = '.' then some ([], rest)
    else
      match breakDot rest with
      | some (a, b) => some (c :: a, b)
      | none => none

theorem breakDot_append (a b : List Char) (h : '.' ∉ a) :
    breakDot (a ++ '.' :: b) = some (a, b) := by
  induction a with
  | nil => simp [breakDot]
  | cons c rest ih =>
    have hc : c ≠ '.' := fun hh => h (hh ▸ List.mem_cons_self c rest)
    have hrest : '.' ∉ rest := fun hm => h (List.mem_cons_of_mem _ hm)
    rw [List.cons_append]
    unfold breakDot
    rw [if_neg hc, ih hrest]

theorem breakDot_some :
    ∀ (cs a b : List Char), breakDot cs = some (a, b) → cs = a ++ '.' :: b ∧ '.' ∉ a := by
  intro cs
  induction cs with
  | nil => intro a b h; simp [breakDot] at h
  | cons c rest ih =>
    intro a b h
    by_cases hc : c = '.'
    · subst hc
      simp [breakDot] at h
      obtain ⟨rfl, rfl⟩ := h
      exact ⟨rfl, by simp⟩
    · simp only [breakDot, if_neg hc] at h
      cases hbd : breakDot rest with
      | none => rw [hbd] at h; cases h
      | some p =>
        obtain ⟨a', b'⟩ := p
        rw [hbd] at h
        simp only [Option.some.injEq, Prod.mk.injEq] at h
        obtain ⟨rfl, rfl⟩ := h
        obtain ⟨hcs, hnd⟩ := ih a' b' hbd
        refine ⟨by rw [List.cons_append, hcs], ?_⟩
        intro hm
        rcases List.mem_cons.mp hm with hh | hh
        · exact hc hh.symm
        · exact hnd hh

/-- Modelled from the spec: the timestamp parser accepts the wire format
`seconds.hh` (a decimal integer, a dot, two decimal digits) and rejects
negative values and non-numeric input (spec §4.5); the Go parser is not
under `src/`. -/
def parseTimestamp (s : String) : Option Nat :=
  match breakDot s.data with
  | some (ip, fp) =>
    if !ip.isEmpty && ip.all isDigitChar && (fp.length == 2) && fp.all isDigitChar then
      some (listVal ip * 100 + listVal fp)
    else none
  | none => none

/-- A legal wire-format timestamp: canonical integer part, a dot, exactly two
digits of hundredths. -/
def isLegalTS (s : String) : Bool :=
  match breakDot s.data with
  | some (ip, fp) => canonNat ip && (fp.length == 2) && fp.all isDigitChar
  | none => false

theorem digitChar_always_digit (d : Nat) : charVal (digitChar d) < 10 := by
  match d with
  | 0 | 1 | 2 | 3 | 4 | 5 | 6 | 7 | 8 => decide
  | n + 9 =>
    show charVal '9' < 10
    decide

theorem canonNat_natChars (m : Nat) : canonNat (natChars m) = true := by
  rw [canonNat_iff]
  refine ⟨natChars_ne_nil m, natChars_all_digit m, ?_⟩
  intro hh
  by_cases h : m = 0
  · rw [natChars_eq, if_pos h]
  · exfalso
    rw [natChars_eq, if_neg h, List.head?_reverse, List.getLast?_map,
      List.getLast?_eq_getLast _ (Nat.digits_ne_nil_iff_ne_zero.mpr h)] at hh
    simp only [Option.map_some', Option.some.injEq] at hh
    have hmem : (Nat.digits 10 m).getLast (Nat.digits_ne_nil_iff_ne_zero.mpr h) ∈
        Nat.digits 10 m := List.getLast_mem _
    have hd10 : (Nat.digits 10 m).getLast (Nat.digits_ne_nil_iff_ne_zero.mpr h) < 10 :=
      Nat.digits_lt_base (by norm_num) hmem
    have hcv := charVal_digitChar hd10
    rw [hh] at hcv
    have hzero : charVal '0' = 0 := by decide
    exact Nat.getLast_digit_ne_zero 10 h (by omega)

/-- Every value of the timestamp formatter is a legal `seconds.hh` wire
string: a canonical integer part, a dot, exactly two decimal digits. -/
theorem modifiedToString_legal (n : Nat) : isLegalTS (modifiedToString n) = true := by
  unfold isLegalTS modifiedToString
  have hdot : '.' ∉ natChars (n / 100) := by
    intro hm
    have := natChars_all_digit (n / 100) '.' hm
    simp [charVal] at this
  show (match breakDot (natChars (n / 100) ++ '.' :: twoDigitChars (n % 100)) with
    | some (ip, fp) => canonNat ip && (fp.length == 2) && fp.all isDigitChar
    | none => false) = true
  rw [breakDot_append _ _ hdot]
  show (canonNat (natChars (n / 100)) && (List.length (twoDigitChars (n % 100)) == 2) &&
    (twoDigitChars (n % 100)).all isDigitChar) = true
  rw [canonNat_natChars]
  simp [twoDigitChars, isDigitChar, digitChar_always_digit]

/-- C8: on every legal `seconds.hh` wire string, parsing then re-formatting
with `ModifiedToString` is the identity; the parser rejects negative values
and non-numeric input. -/
theorem timestamp_roundtrip :
    (∀ s : String, isLegalTS s = true →
      (parseTimestamp s).map modifiedToString = some s) ∧
    parseTimestamp "-1.00" = none ∧ parseTimestamp "abcde" = none := by
  refine ⟨?_, by decide, by decide⟩
  intro s hleg
  unfold isLegalTS at hleg
  cases hbd : breakDot s.data with
  | none => rw [hbd] at hleg; cases hleg
  | some p =>
    obtain ⟨ip, fp⟩ := p
    rw [hbd] at hleg
    simp only [Bool.and_eq_true, beq_iff_eq] at hleg
    obtain ⟨⟨hcanon, hlen⟩, hfpdig⟩ := hleg
    obtain ⟨hseq, hndot⟩ := breakDot_some s.data ip fp hbd
    obtain ⟨hipne, hipdig, _⟩ := (canonNat_iff ip).mp hcanon
    obtain ⟨c1, c2, rfl⟩ := List.length_eq_two.mp hlen
    have hc1 : charVal c1 < 10 :=
      charVal_lt_of_isDigit ((List.all_eq_true.mp hfpdig) c1 (by simp))
    have hc2 : charVal c2 < 10 :=
      charVal_lt_of_isDigit ((List.all_eq_true.mp hfpdig) c2 (by simp))
    unfold parseTimestamp
    rw [hbd]
    have hcond : (!ip.isEmpty && ip.all isDigitChar && (List.length [c1, c2] == 2) &&
        ([c1, c2]).all isDigitChar) = true := by
      simp only [Bool.and_eq_true, List.all_eq_true, Bool.not_eq_true']
      refine ⟨⟨⟨?_, fun c hc => isDigit_of_charVal_lt (hipdig c hc)⟩, by simp⟩, ?_⟩
      · cases ip with
        | nil => exact absurd rfl hipne
        | cons a l => rfl
      · exact List.all_eq_true.mp hfpdig
    show Option.map modifiedToString
        (if (!ip.isEmpty && ip.all isDigitChar && (List.length [c1, c2] == 2) &&
            ([c1, c2]).all isDigitChar) = true then
          some (listVal ip * 100 + listVal [c1, c2])
        else none) = some s
    rw [if_pos hcond]
    rw [Option.map_some']
    refine congrArg some ?_
    have hrp : listVal [c1, c2] = 10 * charVal c1 + charVal c2 := listVal_pair c1 c2
    have hr : listVal [c1, c2] < 100 := listVal_lt_100 c1 c2 hc1 hc2
    have hdiv : (listVal ip * 100 + listVal [c1, c2]) / 100 = listVal ip := by omega
    have hmod : (listVal ip * 100 + listVal [c1, c2]) % 100 = listVal [c1, c2] := by omega
    unfold modifiedToString
    rw [hdiv, hmod]
    rw [natChars_listVal ip hcanon]
    have h10 : listVal [c1, c2] / 10 = charVal c1 := by omega
    have h1 : listVal [c1, c2] % 10 = charVal c2 := by omega
    unfold twoDigitChars
    rw [h10, h1, digitChar_charVal hc1, digitChar_charVal hc2]
    rw [← hseq]

/-- Witness for C8: the round trip evaluated on the concrete legal wire
string "123.45". -/
theorem timestamp_roundtrip_witness :
    (parseTimestamp "123.45").map modifiedToString = some "123.45" :=
  timestamp_roundtrip.1 "123.45" (by decide)

/-! ### The Context-based HTTP layer, modelled from the spec -/

/-- An HTTP request as the modelled router sees it. -/
structure HttpReq where
  method : String
  path : String
  reqHeaders : HeaderMap
deriving Repr, DecidableEq

/-- An HTTP response of the modelled router. -/
structure HttpResp where
  status : Nat
  headers : HeaderMap
  body : String
deriving Repr, DecidableEq

theorem getHeader_setHeader (hs : HeaderMap) (k v : String) :
    getHeader (setHeader hs k v) k = some v := by
  unfold getHeader setHeader
  rw [List.find?_cons_of_pos _ (by simp)]
  rfl

theorem find?_key_filter (l : HeaderMap) (k k' : String) (hne : k' ≠ k) :
    (l.filter (fun p => p.1 ≠ k)).find? (fun p => p.1 = k') =
      l.find? (fun p => p.1 = k') := by
  induction l with
  | nil => rfl
  | cons p l ih =>
    by_cases hp : p.1 = k
    · rw [List.filter_cons_of_neg (by simp [hp]),
        List.find?_cons_of_neg _ (by simp [hp, Ne.symm hne]), ih]
    · by_cases hp' : p.1 = k'
      · rw [List.filter_cons_of_pos (by simp [hp]), List.find?_cons_of_pos _ (by simp [hp']),
          List.find?_cons_of_pos _ (by simp [hp'])]
      · rw [List.filter_cons_of_pos (by simp [hp]), List.find?_cons_of_neg _ (by simp [hp']),
          List.find?_cons_of_neg _ (by simp [hp']), ih]

theorem getHeader_setHeader_ne (hs : HeaderMap) (k k' v : String) (hne : k' ≠ k) :
    getHeader (setHeader hs k v) k' = getHeader hs k' := by
  unfold getHeader setHeader
  rw [List.find?_cons_of_neg _ (by simp [Ne.symm hne]), find?_key_filter hs k k' hne]

/-- Split a path on '/' characters. -/
def splitSlash : List Char → List (List Char)
  | [] => [[]]
  | c :: rest =>
    if c = '/' then [] :: splitSlash rest
    else
      match splitSlash rest with
      | s :: ss => (c :: s) :: ss
      | [] => [[c]]

/-- Path segments of a URL path. -/
def pathSegs (p : String) : List String :=
  (splitSlash p.data).map String.mk

/-- The `{uid:[0-9]+}` route pattern. -/
def isUidSeg (s : String) : Bool := !s.data.isEmpty && s.data.all isDigitChar

/-- The route targets of the Sync 1.5 URL schema (spec §6). -/
inductive RouteHit where
  | heartbeat
  | echoUid (uid : String)
  | infoCollections (uid : String)
  | infoCollectionCounts (uid : String)
  | infoCollectionUsage (uid : String)
  | infoQuota (uid : String)
  | collectionRead (uid col : String)
  | collectionWrite (uid col : String)
  | collectionWipe (uid col : String)
  | bsoRead (uid col bid : String)
  | bsoWrite (uid col bid : String)
  | bsoWipe (uid col bid : String)
  | userWipe (uid : String)
deriving Repr, DecidableEq

/-- Modelled from the spec: the URL schema of §6 — `GET /__heartbeat__`, the
`/1.5/{uid}/info/*` routes, the collection and single-BSO storage routes and
the full-wipe routes (plus the test-only `echo-uid` route); the Context-based
Go router is not under `src/`. -/
def routeMatch (method : String) (path : String) : Option RouteHit :=
  match pathSegs path with
  | ["", "__heartbeat__"] => if method == "GET" then some .heartbeat else none
  | ["", "1.5", uid] =>
    if isUidSeg uid && (method == "DELETE") then some (.userWipe uid) else none
  | ["", "1.5", uid, "echo-uid"] =>
    if isUidSeg uid && (method == "GET") then some (.echoUid uid) else none
  | ["", "1.5", uid, "storage"] =>
    if isUidSeg uid && (method == "DELETE") then some (.userWipe uid) else none
  | ["", "1.5", uid, "info", "collections"] =>
    if isUidSeg uid && (method == "GET") then some (.infoCollections uid) else none
  | ["", "1.5", uid, "info", "collection_counts"] =>
    if isUidSeg uid && (method == "GET") then some (.infoCollectionCounts uid) else none
  | ["", "1.5", uid, "info", "collection_usage"] =>
    if isUidSeg uid && (method == "GET") then some (.infoCollectionUsage uid) else none
  | ["", "1.5", uid, "info", "quota"] =>
    if isUidSeg uid && (method == "GET") then some (.infoQuota uid) else none
  | ["", "1.5", uid, "storage", col] =>
    if isUidSeg uid then
      if method == "GET" then some (.collectionRead uid col)
      else if method == "POST" then some (.collectionWrite uid col)
      else if method == "DELETE" then some (.collectionWipe uid col)
      else none
    else none
  | ["", "1.5", uid, "storage", col, bid] =>
    if isUidSeg uid then
      if method == "GET" then some (.bsoRead uid col bid)
      else if method == "PUT" then some (.bsoWrite uid col bid)
      else if method == "DELETE" then some (.bsoWipe uid col bid)
      else none
    else none
  | _ => none

/-- Modelled from the spec: "A 404 on an unknown route returns `\"0\"`" — a
bare JSON number body, served as JSON; the Context-based Go router's
not-found handler is not under `src/`. -/
def weave404 : HttpResp :=
  ⟨404, [("Content-Type", "application/json")], "0"⟩

/-- Route a request: an unmatched path is answered by the weave 404 handler,
a matched one by the route's handler `h`. -/
def routeRequest (h : RouteHit → HttpReq → HttpResp) (req : HttpReq) : HttpResp :=
  match routeMatch req.method req.path with
  | none => weave404
  | some hit => h hit req

/-- Modelled from the spec: "Every response carries
`X-Weave-Timestamp: seconds.hh` (server `now`)" (spec §6); the Context
middleware that stamps responses is not under `src/`. -/
def addWeaveTimestamp (now : Nat) (resp : HttpResp) : HttpResp :=
  { resp with headers := setHeader resp.headers "X-Weave-Timestamp" (modifiedToString now) }

/-- The full modelled request pipeline: route, handle, stamp. -/
def serveSync (h : RouteHit → HttpReq → HttpResp) (now : Nat) (req : HttpReq) : HttpResp :=
  addWeaveTimestamp now (routeRequest h req)

/-- C1: every response of the modelled router — whatever the handlers do —
carries an `X-Weave-Timestamp` header holding the server's current time,
and its value is in the `seconds.hh` wire format: the decimal seconds
`now / 100`, a dot, and exactly the two decimal digits of `now % 100`. -/
theorem every_response_has_weave_timestamp
    (h : RouteHit → HttpReq → HttpResp) (now : Nat) (req : HttpReq) :
    getHeader (serveSync h now req).headers "X-Weave-Timestamp" =
      some (modifiedToString now) ∧
    isLegalTS (modifiedToString now) = true ∧
    modifiedToString now =
      natToString (now / 100) ++ "." ++ String.mk (twoDigitChars (now % 100)) := by
  refine ⟨?_, modifiedToString_legal now, ?_⟩
  · unfold serveSync addWeaveTimestamp
    exact getHeader_setHeader _ _ _
  · show String.mk (natChars (now / 100) ++ '.' :: twoDigitChars (now % 100)) =
      String.mk ((natChars (now / 100) ++ ['.']) ++ twoDigitChars (now % 100))
    rw [List.append_assoc]
    rfl

/-- C2: a request whose method and path match no route is answered with
status 404, body exactly the string "0", and Content-Type
`application/json`. -/
theorem unknown_route_weave_404
    (h : RouteHit → HttpReq → HttpResp) (now : Nat) (req : HttpReq)
    (hmatch : routeMatch req.method req.path = none) :
    (serveSync h now req).status = 404 ∧
    (serveSync h now req).body = "0" ∧
    getHeader (serveSync h now req).headers "Content-Type" =
      some "application/json" := by
  unfold serveSync routeRequest
  rw [hmatch]
  refine ⟨rfl, rfl, ?_⟩
  unfold addWeaveTimestamp
  rw [getHeader_setHeader_ne _ _ _ _ (by decide)]
  rfl

/-- Witness for C2: the concrete request `GET /nonexistant/url` of the test
suite matches no route and produces the 404 "0" JSON response. -/
theorem unknown_route_weave_404_witness :
    (serveSync (fun _ _ => ⟨200, [], ""⟩) 123456 ⟨"GET", "/nonexistant/url", []⟩).status = 404 ∧
    (serveSync (fun _ _ => ⟨200, [], ""⟩) 123456 ⟨"GET", "/nonexistant/url", []⟩).body = "0" ∧
    getHeader (serveSync (fun _ _ => ⟨200, [], ""⟩) 123456
        ⟨"GET", "/nonexistant/url", []⟩).headers "Content-Type" =
      some "application/json" :=
  unknown_route_weave_404 (fun _ _ => ⟨200, [], ""⟩) 123456
    ⟨"GET", "/nonexistant/url", []⟩ (by decide)

/-! ### The per-user Store, modelled from the spec -/

/-- A stored BSO row (spec §3): id, payload, optional sortindex, modified
timestamp and optional absolute-expiry ttl (times in hundredths of a
second). -/
structure BSORec where
  bid : String
  payload : String
  sortindex : Option Int
  modified : Nat
  ttl : Option Nat
deriving Repr, DecidableEq

/-- One input of `PutBSO` / `PostBSOs`: every field but the id is
optional. -/
structure PutBSOInput where
  bid : String
  payload : Option String
  sortindex : Option Int
  ttl : Option Nat
deriving Repr, DecidableEq

/-- Modelled from the spec: `PutBSO` creates or updates; "A field absent in
the input is left unchanged on update (the payload is not zeroed)"; the
request-side `ttl` is seconds from now, stored as the absolute timestamp
`now + ttl*100` (spec §4.1.2); the Go Store is not under `src/`.  A
collection is the list of its BSO rows. -/
def putBSO (now : Nat) (col : List BSORec) (bid : String) (payload : Option String)
    (sortindex : Option Int) (ttl : Option Nat) : List BSORec :=
  match col with
  | [] =>
    [{ bid := bid, payload := payload.getD "", sortindex := sortindex,
       modified := now, ttl := ttl.map (fun t => now + t * 100) }]
  | b :: rest =>
    if b.bid == bid then
      { b with
        payload := payload.getD b.payload,
        sortindex := match sortindex with | some s => some s | none => b.sortindex,
        modified := now,
        ttl := match ttl with | some t => some (now + t * 100) | none => b.ttl } :: rest
    else b :: putBSO now rest bid payload sortindex ttl

/-- Modelled from the spec: `PostBSOs` is a batched put, applied in order,
all writes sharing one timestamp (spec §4.1.2, §4.1.3). -/
def postBSOs (now : Nat) (col : List BSORec) (inputs : List PutBSOInput) : List BSORec :=
  inputs.foldl (fun c i => putBSO now c i.bid i.payload i.sortindex i.ttl) col

/-- Look a BSO up by id. -/
def findBSO (col : List BSORec) (bid : String) : Option BSORec :=
  col.find? (fun b => b.bid == bid)

/-- The row an update leaves behind: input fields that are present replace
the old values, absent ones keep them; `modified` is stamped with `now`. -/
theorem findBSO_putBSO (now : Nat) (col : List BSORec) (bid : String)
    (payload : Option String) (sortindex : Option Int) (ttl : Option Nat) (b : BSORec)
    (hfound : findBSO col bid = some b) :
    findBSO (putBSO now col bid payload sortindex ttl) bid =
      some { b with
        payload := payload.getD b.payload,
        sortindex := match sortindex with | some s => some s | none => b.sortindex,
        modified := now,
        ttl := match ttl with | some t => some (now + t * 100) | none => b.ttl } := by
  induction col with
  | nil => simp [findBSO] at hfound
  | cons c rest ih =>
    unfold findBSO at hfound ⊢
    by_cases hc : c.bid = bid
    · rw [List.find?_cons_of_pos _ (by simp [hc])] at hfound
      have hb : c = b := by simpa using hfound
      subst hb
      unfold putBSO
      rw [if_pos (by simp [hc])]
      rw [List.find?_cons_of_pos _ (by simp [hc])]
    · rw [List.find?_cons_of_neg _ (by simp [hc])] at hfound
      unfold putBSO
      rw [if_neg (by simp [hc])]
      rw [List.find?_cons_of_neg _ (by simp [hc])]
      exact ih hfound

/-- C6: a `PutBSO` update of an existing BSO whose input omits a field
leaves that field's stored value unchanged — updating only the sortindex
preserves the payload, updating only the payload preserves the sortindex —
while the supplied field takes its new value; and a batched POST is exactly
a sequence of such puts. -/
theorem put_update_preserves_absent_fields
    (now : Nat) (col : List BSORec) (bid : String) (p : String) (s : Int) (b : BSORec)
    (hfound : findBSO col bid = some b) :
    ((findBSO (putBSO now col bid none (some s) none) bid).map (fun x => x.payload) =
        some b.payload ∧
      (findBSO (putBSO now col bid none (some s) none) bid).map (fun x => x.sortindex) =
        some (some s)) ∧
    ((findBSO (putBSO now col bid (some p) none none) bid).map (fun x => x.sortindex) =
        some b.sortindex ∧
      (findBSO (putBSO now col bid (some p) none none) bid).map (fun x => x.payload) =
        some p) ∧
    (∀ (i : PutBSOInput) (c : List BSORec) (n : Nat),
      postBSOs n c [i] = putBSO n c i.bid i.payload i.sortindex i.ttl) := by
  rw [findBSO_putBSO now col bid none (some s) none b hfound,
    findBSO_putBSO now col bid (some p) none none b hfound]
  exact ⟨⟨rfl, rfl⟩, ⟨rfl, rfl⟩, fun i c n => rfl⟩

/-- The collection state of the POST test scenario: the three initial-payload
BSOs inserted as one batch at time 100. -/
def initialCol : List BSORec :=
  postBSOs 100 []
    [⟨"bso1", some "initial payload", some 1, some 2100000⟩,
     ⟨"bso2", some "initial payload", some 1, some 2100000⟩,
     ⟨"bso3", some "initial payload", some 1, some 2100000⟩]

/-- Witness for C6 on the test scenario: updating `bso1` with only a
sortindex keeps its payload, and updating it with only a payload keeps its
sortindex. -/
theorem put_update_preserves_absent_fields_witness :
    ((findBSO (putBSO 200 initialCol "bso1" none (some 2) none) "bso1").map
        (fun x => x.payload) = some "initial payload" ∧
      (findBSO (putBSO 200 initialCol "bso1" none (some 2) none) "bso1").map
        (fun x => x.sortindex) = some (some 2)) ∧
    ((findBSO (putBSO 200 initialCol "bso1" (some "updated payload") none none) "bso1").map
        (fun x => x.sortindex) = some (some 1) ∧
      (findBSO (putBSO 200 initialCol "bso1" (some "updated payload") none none) "bso1").map
        (fun x => x.payload) = some "updated payload") ∧
    (∀ (i : PutBSOInput) (c : List BSORec) (n : Nat),
      postBSOs n c [i] = putBSO n c i.bid i.payload i.sortindex i.ttl) :=
  put_update_preserves_absent_fields 200 initialCol "bso1" "updated payload" 2
    ⟨"bso1", "initial payload", some 1, 100, some 210000100⟩ (by decide)

/-! ### GetBSOs queries and the collection GET limit cap -/

/-- Sort orders of `GetBSOs` (spec §4.1.1). -/
inductive SortOrder where
  | newest
  | oldest
  | index
deriving Repr, DecidableEq

/-- Lexicographic order on the characters of two ids. -/
def charListLT : List Char → List Char → Bool
  | [], [] => false
  | [], _ :: _ => true
  | _ :: _, [] => false
  | a :: as, b :: bs => if a = b then charListLT as bs else decide (a.toNat < b.toNat)

/-- Ascending id order used for tie-breaks. -/
def bidLE (a b : String) : Bool := a == b || charListLT a.data b.data

/-- The comparators of spec §4.1.1: `newest` is modified descending,
`oldest` modified ascending, `index` sortindex descending with NULLs last;
ties break by bid ascending (for `index`: by modified descending, then
bid). -/
def sortLE (ord : SortOrder) (a b : BSORec) : Bool :=
  match ord with
  | .newest => decide (b.modified < a.modified) ||
      (a.modified == b.modified && bidLE a.bid b.bid)
  | .oldest => decide (a.modified < b.modified) ||
      (a.modified == b.modified && bidLE a.bid b.bid)
  | .index =>
    match a.sortindex, b.sortindex with
    | some x, some y => decide (y < x) ||
        (x == y && (decide (b.modified < a.modified) ||
          (a.modified == b.modified && bidLE a.bid b.bid)))
    | some _, none => true
    | none, some _ => false
    | none, none => decide (b.modified < a.modified) ||
        (a.modified == b.modified && bidLE a.bid b.bid)

/-- A BSO is visible unless its ttl has passed (spec §3, invariant 3). -/
def visibleBSO (now : Nat) (b : BSORec) : Bool :=
  match b.ttl with
  | none => true
  | some t => decide (now ≤ t)

/-- Modelled from the spec: the `GetBSOs` filter pipeline — exclude expired,
keep requested ids, `newer` is strictly greater modified, `older` strictly
less (spec §4.1.1); the Go Store is not under `src/`. -/
def filterBSOs (now : Nat) (col : List BSORec) (ids : Option (List String))
    (newer older : Option Nat) : List BSORec :=
  (((col.filter (fun b => visibleBSO now b)).filter
      (fun b => match ids with | none => true | some l => l.contains b.bid)).filter
      (fun b => match newer with | none => true | some t => decide (t < b.modified))).filter
      (fun b => match older with | none => true | some t => decide (b.modified < t))

/-- Sort the filtered rows by the requested order. -/
def sortBSOs (ord : SortOrder) (l : List BSORec) : List BSORec :=
  l.insertionSort (fun a b => sortLE ord a b = true)

/-- Modelled from the spec: `GetBSOs` returns the post-filter rows after the
client-side black-box `offset`, truncated to `limit` when one is in force;
when rows remain
beyond the page, `nextOffset` is the count of consumed rows (spec §4.1.1);
the Go Store is not under `src/`. -/
def getBSOs (now : Nat) (col : List BSORec) (ids : Option (List String))
    (newer older : Option Nat) (ord : SortOrder) (limit : Option Nat) (offset : Nat) :
    List BSORec × Option Nat :=
  match limit with
  | some l =>
    if l < ((sortBSOs ord (filterBSOs now col ids newer older)).drop offset).length then
      (((sortBSOs ord (filterBSOs now col ids newer older)).drop offset).take l,
        some (offset + l))
    else ((sortBSOs ord (filterBSOs now col ids newer older)).drop offset, none)
  | none => ((sortBSOs ord (filterBSOs now col ids newer older)).drop offset, none)

/-- Modelled from the spec: "A server-configured `MaxBSOGetLimit` silently
caps the effective `limit`" (spec §6); `maxGet = 0` means no server cap; the
Context-based collection GET handler is not under `src/`. -/
def effectiveLimit (maxGet : Nat) (requested : Option Nat) : Option Nat :=
  match requested with
  | none => if maxGet = 0 then none else some maxGet
  | some l => if maxGet = 0 then some l else some (min l maxGet)

/-- The collection GET handler's query: the requested limit capped by the
server configuration. -/
def collectionGET (maxGet now : Nat) (col : List BSORec) (ids : Option (List String))
    (newer older : Option Nat) (ord : SortOrder) (requested : Option Nat) (offset : Nat) :
    List BSORec × Option Nat :=
  getBSOs now col ids newer older ord (effectiveLimit maxGet requested) offset

/-- The `X-Weave-Next-Offset` response header, present when more rows
remain. -/
def nextOffsetHeader (r : List BSORec × Option Nat) : Option (String × String) :=
  r.2.map (fun n => ("X-Weave-Next-Offset", natToString n))

/-- The five bookmarks BSOs of the collection GET test, inserted with
spaced modified times. -/
def fiveBSOCol : List BSORec :=
  [⟨"bid_0", "some data", some 0, 1000, none⟩,
   ⟨"bid_1", "some data", some 1, 1002, none⟩,
   ⟨"bid_2", "some data", some 2, 1004, none⟩,
   ⟨"bid_3", "some data", some 3, 1006, none⟩,
   ⟨"bid_4", "some data", some 4, 1008, none⟩]

theorem getBSOs_next_offset (now : Nat) (col : List BSORec) (ids : Option (List String))
    (newer older : Option Nat) (ord : SortOrder) (lim : Option Nat) (offset nxt : Nat)
    (h : (getBSOs now col ids newer older ord lim offset).2 = some nxt) :
    nxt = offset + (getBSOs now col ids newer older ord lim offset).1.length := by
  cases lim with
  | none => simp [getBSOs] at h
  | some l =>
    simp only [getBSOs] at h ⊢
    by_cases hl :
        l < ((sortBSOs ord (filterBSOs now col ids newer older)).drop offset).length
    · rw [if_pos hl] at h ⊢
      simp only [Option.some.injEq] at h
      subst h
      simp only [List.length_take]
      omega
    · rw [if_neg hl] at h
      simp at h

/-- C4: the server-configured `MaxBSOGetLimit` caps every collection GET:
no response ever carries more than `MaxBSOGetLimit` items; whenever
`X-Weave-Next-Offset` is present it equals the count of consumed rows
(the skipped offset plus the returned items); when the cap is smaller than
the post-filter result count an uncapped request returns exactly
`MaxBSOGetLimit` items with next offset `MaxBSOGetLimit`; and on the
five-BSO test collection with `MaxBSOGetLimit = 4`, `sort=newest` returns
exactly `bid_4 … bid_1` with `X-Weave-Next-Offset: 4`. -/
theorem maxBSOGetLimit_caps :
    (∀ (maxGet now : Nat) (col : List BSORec) (ids : Option (List String))
        (newer older : Option Nat) (ord : SortOrder) (requested : Option Nat)
        (offset : Nat), 0 < maxGet →
      (collectionGET maxGet now col ids newer older ord requested offset).1.length ≤ maxGet) ∧
    (∀ (maxGet now : Nat) (col : List BSORec) (ids : Option (List String))
        (newer older : Option Nat) (ord : SortOrder) (requested : Option Nat)
        (offset nxt : Nat),
      (collectionGET maxGet now col ids newer older ord requested offset).2 = some nxt →
      nxt = offset +
        (collectionGET maxGet now col ids newer older ord requested offset).1.length) ∧
    (∀ (maxGet now : Nat) (col : List BSORec) (ids : Option (List String))
        (newer older : Option Nat) (ord : SortOrder), 0 < maxGet →
      maxGet < (sortBSOs ord (filterBSOs now col ids newer older)).length →
      (collectionGET maxGet now col ids newer older ord none 0).1.length = maxGet ∧
      (collectionGET maxGet now col ids newer older ord none 0).2 = some maxGet) ∧
    (collectionGET 4 2000 fiveBSOCol none none none .newest none 0).1.map
      (fun b => b.bid) = ["bid_4", "bid_3", "bid_2", "bid_1"] ∧
    nextOffsetHeader (collectionGET 4 2000 fiveBSOCol none none none .newest none 0) =
      some ("X-Weave-Next-Offset", "4") := by
  refine ⟨?_, ?_, ?_, by decide, by decide⟩
  · intro maxGet now col ids newer older ord requested offset hpos
    have hne := Nat.pos_iff_ne_zero.mp hpos
    have hcap : ∀ l : Nat, l ≤ maxGet →
        (getBSOs now col ids newer older ord (some l) offset).1.length ≤ maxGet := by
      intro l hle
      simp only [getBSOs]
      by_cases hl :
          l < ((sortBSOs ord (filterBSOs now col ids newer older)).drop offset).length
      · rw [if_pos hl]
        simp only [List.length_take]
        omega
      · rw [if_neg hl]
        simp only [not_lt, List.length_drop] at hl
        simp only [List.length_drop]
        omega
    unfold collectionGET
    cases requested with
    | none =>
      simp only [effectiveLimit]
      rw [if_neg hne]
      exact hcap maxGet le_rfl
    | some r =>
      simp only [effectiveLimit]
      rw [if_neg hne]
      exact hcap (min r maxGet) (min_le_right r maxGet)
  · intro maxGet now col ids newer older ord requested offset nxt h
    exact getBSOs_next_offset now col ids newer older ord
      (effectiveLimit maxGet requested) offset nxt h
  · intro maxGet now col ids newer older ord hpos hlt
    have hne := Nat.pos_iff_ne_zero.mp hpos
    unfold collectionGET
    simp only [effectiveLimit]
    rw [if_neg hne]
    simp only [getBSOs, List.drop_zero]
    rw [if_pos hlt]
    refine ⟨?_, ?_⟩
    · simp only [List.length_take]
      omega
    · rw [Nat.zero_add]

/-- Witness for C4: the cap, the consumed-count equation and the exact-cap
case evaluated on the concrete five-BSO collection. -/
theorem maxBSOGetLimit_caps_witness :
    (collectionGET 4 2000 fiveBSOCol none none none SortOrder.newest none 0).1.length = 4 ∧
    (collectionGET 4 2000 fiveBSOCol none none none SortOrder.newest none 0).2 = some 4 :=
  maxBSOGetLimit_caps.2.2.1 4 2000 fiveBSOCol none none none SortOrder.newest
    (by decide) (by decide)

/-! ### Single-BSO GET conditional headers -/

/-- Modelled from the spec: the single-BSO GET decision over the conditional
headers (spec §6 and §7) — a request carrying both `X-If-Modified-Since` and
`X-If-Unmodified-Since` is rejected with 400, a malformed header value is
400, otherwise `modified ≤ t` gives 304 under `X-If-Modified-Since` and
`modified > t` gives 412 under `X-If-Unmodified-Since`, a missing BSO is 404
and the remaining case 200; the Context-based Go handler is not under
`src/`. -/
def bsoGETStatus (ims ius : Option String) (bsoModified : Option Nat) : Nat :=
  match ims, ius with
  | some _, some _ => 400
  | some s, none =>
    match parseTimestamp s with
    | none => 400
    | some t =>
      match bsoModified with
      | none => 404
      | some m => if m ≤ t then 304 else 200
  | none, some s =>
    match parseTimestamp s with
    | none => 400
    | some t =>
      match bsoModified with
      | none => 404
      | some m => if t < m then 412 else 200
  | none, none =>
    match bsoModified with
    | none => 404
    | some _ => 200

/-- C5: every single-BSO GET that carries both `X-If-Modified-Since` and
`X-If-Unmodified-Since` — whatever their values and whether the BSO exists —
is answered 400; with only one of the headers the conditional outcomes 304
and 412 (and 400 on a malformed value) are still reachable. -/
theorem bsoGET_both_conditionals_400 :
    (∀ (s1 s2 : String) (m : Option Nat), bsoGETStatus (some s1) (some s2) m = 400) ∧
    bsoGETStatus (some "10.00") none (some 1000) = 304 ∧
    bsoGETStatus none (some "9.99") (some 1000) = 412 ∧
    bsoGETStatus (some "-1.00") none (some 1000) = 400 :=
  ⟨fun _ _ _ => rfl, by decide, by decide, by decide⟩

/-! ### Quota accounting -/

/-- Payload bytes stored in one collection. -/
def totalPayloadBytes (col : List BSORec) : Nat :=
  (col.map (fun b => b.payload.length)).sum

/-- Payload bytes stored for a user, over all collections. -/
def storeUsageBytes (store : List (String × List BSORec)) : Nat :=
  (store.map (fun c => totalPayloadBytes c.2)).sum

/-- Exactly `w` digit characters of `n`, left-padded with zeros. -/
def padDigits (w n : Nat) : List Char :=
  List.replicate (w - (natChars n).length) '0' ++ natChars n

/-- Strip trailing zero characters. -/
def stripZeros (cs : List Char) : List Char :=
  (cs.reverse.dropWhile (fun c => c = '0')).reverse

/-- Modelled from the spec: the kilobyte usage `bytes/1024` rendered the way
Go marshals the float64 — an exact decimal with trailing zeros dropped (the
denominator is 2^10, so ten fractional digits are exact:
`(bytes % 1024) * 5^10` over `10^10`); the Go quota handler is not under
`src/`. -/
def kbRepr (bytes : Nat) : String :=
  if bytes % 1024 = 0 then natToString (bytes / 1024)
  else
    String.mk (natChars (bytes / 1024) ++ '.' ::
      stripZeros (padDigits 10 ((bytes % 1024) * 9765625)))

/-- Modelled from the spec: `GET /1.5/{uid}/info/quota` responds 200 with
body the JSON two-element array `[kilobytes, null]` (spec §6); quota
enforcement is stubbed, so the second element is always `null`. -/
def quotaGET (store : List (String × List BSORec)) : Nat × String :=
  (200, "[" ++ kbRepr (storeUsageBytes store) ++ ",null]")

/-- The user state of the quota boundary scenario: the three initial-payload
BSOs POSTed into collection col2 at time `now`. -/
def quotaScenarioStore (now : Nat) : List (String × List BSORec) :=
  [("col2", postBSOs now []
      [⟨"bso1", some "initial payload", some 1, some 2100000⟩,
       ⟨"bso2", some "initial payload", some 1, some 2100000⟩,
       ⟨"bso3", some "initial payload", some 1, some 2100000⟩])]

/-- C3: the quota endpoint answers 200 with a two-element JSON array of the
used kilobytes and null; after POSTing the three initial-payload BSOs of
the boundary scenario (3 × 15 = 45 bytes) into collection col2 — at any
write timestamp — the body is exactly `[0.0439453125,null]`. -/
theorem quota_used_kilobytes :
    (∀ store, (quotaGET store).1 = 200 ∧
      (quotaGET store).2 = "[" ++ kbRepr (storeUsageBytes store) ++ ",null]") ∧
    (∀ now : Nat,
      quotaGET (quotaScenarioStore now) = (200, "[0.0439453125,null]")) := by
  refine ⟨fun _ => ⟨rfl, rfl⟩, fun now => ?_⟩
  have h45 : storeUsageBytes (quotaScenarioStore now) = 45 := rfl
  unfold quotaGET
  rw [h45]
  rfl
